import Mathlib

/-!
Verification development for the radioactive dataset-loading layer.

Shallow embedding of the four source files:
  src/src/nuclide/half_life.rs   (TimeUnit, HalfLife, parsing, display)
  src/src/error.rs               (Error kinds)
  src/src/dataset/icrp107/mod.rs (Icrp107 facade, DecayData impl)
  src/src/dataset/mod.rs         (NuclideData facade, DecayChain impl)

Modelling conventions: f64 numeric values are embedded as exact rationals
(decimal literals are read exactly, without IEEE-754 rounding); the
transcendental constant 2.0_f64.ln() is embedded as Real.log 2; the regex
crate's leftmost-first search is embedded as a hand-written scanner over
List Char that mirrors the concrete pattern of HalfLife::from_str, with
the character classes \d and \s restricted to their ASCII content
(Char.isDigit / Char.isWhitespace), which agrees with the regex crate on
the ASCII inputs considered here.
-/

/-- Time units of a half-life, from enum TimeUnit in half_life.rs
(serde rename tokens: us, ms, s, m, h, d, y). -/
inductive TimeUnit : Type where
  | MicroSecond
  | MilliSecond
  | Second
  | Minute
  | Hour
  | Day
  | Year
deriving DecidableEq, Repr

/-- Conversion factor of a TimeUnit into seconds, from TimeUnit::as_sec.
The f64 literals 1e-6, 1e-3, 365.2422 are embedded as exact rationals. -/
def TimeUnit.as_sec : TimeUnit → ℚ
  | TimeUnit.MicroSecond => 1 / 1000000
  | TimeUnit.MilliSecond => 1 / 1000
  | TimeUnit.Second => 1
  | TimeUnit.Minute => 60
  | TimeUnit.Hour => 3600
  | TimeUnit.Day => 86400
  | TimeUnit.Year => (3652422 / 10000) * 86400

/-- Display rendering of a TimeUnit, from impl Display for TimeUnit.
Note MicroSecond renders as the non-ASCII string "μs". -/
def TimeUnit.display : TimeUnit → String
  | TimeUnit.MicroSecond => "μs"
  | TimeUnit.MilliSecond => "ms"
  | TimeUnit.Second => "s"
  | TimeUnit.Minute => "m"
  | TimeUnit.Hour => "h"
  | TimeUnit.Day => "d"
  | TimeUnit.Year => "y"

/-- Half-life value type, from struct HalfLife in half_life.rs.
The f64 value field is embedded as an exact rational. -/
structure HalfLife : Type where
  value : ℚ
  unit : TimeUnit
deriving DecidableEq, Repr

/-- Half-life in seconds, from HalfLife::as_sec. -/
def HalfLife.as_sec (h : HalfLife) : ℚ :=
  h.value * h.unit.as_sec

/-- Decay constant in inverse seconds, from HalfLife::as_lambda,
which computes 2.0_f64.ln() / self.as_sec(). -/
noncomputable def HalfLife.as_lambda (h : HalfLife) : ℝ :=
  Real.log 2 / (h.as_sec : ℝ)

/-- Error kinds, from enum Error in error.rs (the constructors relevant to
the dataset/half-life layer; payloads are the offending raw tokens). -/
inductive Error : Type where
  | InvalidNuclide (s : String)
  | InvalidHalfLife (s : String)
  | InvalidDecayMode (s : String)
  | InvalidFloat (s : String)
  | InvalidInteger (s : String)
  | InvalidFilePath
  | StdIoFailure (s : String)
deriving DecidableEq, Repr

deriving instance DecidableEq for Except

/-- Numeric value of an ASCII digit run, most significant digit first. -/
def natOfDigits (ds : List Char) : Nat :=
  ds.foldl (fun n c => 10 * n + (c.toNat - 48)) 0

/-- Rational denoted by a decimal numeral with integer digits d1, fraction
digits d2 and decimal exponent e; embeds Rust's f64 parsing of the captured
value string exactly (without IEEE-754 rounding). -/
def mkVal (d1 d2 : List Char) (e : Int) : ℚ :=
  ((natOfDigits d1 : ℚ) + (natOfDigits d2 : ℚ) / (10 : ℚ) ^ d2.length) * (10 : ℚ) ^ e

/-- Trailing part of the exponent matcher: consume an optional sign's digit
run; on an empty run the whole optional exponent group matches nothing and
the scanner stays at orig. -/
def readExpDigits (orig u : List Char) (sign : Int) : Int × List Char :=
  match u.takeWhile Char.isDigit with
  | [] => (0, orig)
  | ds => (sign * (natOfDigits ds : Int), u.dropWhile Char.isDigit)

/-- Exponent matcher after the [Ee] marker, handling the optional sign:
a leading plus or minus is consumed, anything else is left for the digit
run. -/
def readExpTail (orig rest : List Char) : Int × List Char :=
  match rest with
  | c :: u =>
    if c = '+' then readExpDigits orig u 1
    else if c = '-' then readExpDigits orig u (-1)
    else readExpDigits orig (c :: u) 1
  | [] => readExpDigits orig [] 1

/-- Matcher for the optional exponent group of the value pattern in
HalfLife::from_str. Mirrors the regex fragment, which matches
an [Ee] marker, an optional sign and a nonempty digit run, or nothing. -/
def readExp (cs : List Char) : Int × List Char :=
  match cs with
  | 'e' :: rest => readExpTail cs rest
  | 'E' :: rest => readExpTail cs rest
  | _ => (0, cs)

/-- Matcher for the part of the value group after the leading digit run d1:
an optional dot with an optional digit run, then the optional exponent. -/
def matchFrac (d1 r1 : List Char) : ℚ × List Char :=
  match r1 with
  | '.' :: t =>
    (mkVal d1 (t.takeWhile Char.isDigit) (readExp (t.dropWhile Char.isDigit)).1,
      (readExp (t.dropWhile Char.isDigit)).2)
  | _ => (mkVal d1 [] (readExp r1).1, (readExp r1).2)

/-- Anchored matcher for the value group of the regex in HalfLife::from_str:
a nonempty digit run, an optional dot with an optional digit run, and an
optional exponent. Digit runs are taken maximally, which agrees with the
regex engine because no later element of the pattern can consume a digit
character, so a shorter run would be re-extended to the same end position. -/
def matchNum (cs : List Char) : Option (ℚ × List Char) :=
  match cs.takeWhile Char.isDigit with
  | [] => none
  | d1 => some (matchFrac d1 (cs.dropWhile Char.isDigit))

/-- Anchored matcher for the unit group of the regex in HalfLife::from_str,
in the regex engine's preference order: the branch for us and ms and s
first, then m, h, d, y. -/
def matchUnit : List Char → Option (TimeUnit × List Char)
  | 'u' :: 's' :: r => some (TimeUnit.MicroSecond, r)
  | 'm' :: 's' :: r => some (TimeUnit.MilliSecond, r)
  | 's' :: r => some (TimeUnit.Second, r)
  | 'm' :: r => some (TimeUnit.Minute, r)
  | 'h' :: r => some (TimeUnit.Hour, r)
  | 'd' :: r => some (TimeUnit.Day, r)
  | 'y' :: r => some (TimeUnit.Year, r)
  | _ => none

/-- Matcher for the optional single whitespace followed by the unit group.
The regex prefers consuming the whitespace; on failure it backtracks and
tries the unit at the whitespace itself (which can never succeed, since no
whitespace character starts a unit token, but is kept for faithfulness). -/
def matchSpaceUnit (cs : List Char) : Option TimeUnit :=
  match cs with
  | c :: t =>
    if c.isWhitespace then
      match matchUnit t with
      | some p => some p.1
      | none => (matchUnit cs).map (fun p => p.1)
    else (matchUnit cs).map (fun p => p.1)
  | [] => none

/-- Anchored matcher for the whole regex of HalfLife::from_str at one start
position: value group, optional whitespace, unit group; the match may end
before the end of the input (the regex is unanchored on the right). -/
def matchHL (cs : List Char) : Option HalfLife :=
  match matchNum cs with
  | none => none
  | some (v, rest) =>
    match matchSpaceUnit rest with
    | some u => some { value := v, unit := u }
    | none => none

/-- Leftmost search of the regex: try every start position left to right,
as Regex::captures does. -/
def regexSearch : List Char → Option HalfLife
  | [] => none
  | c :: t =>
    match matchHL (c :: t) with
    | some h => some h
    | none => regexSearch t

/-- Parsing of a HalfLife from text, from impl FromStr for HalfLife: an
unanchored regex search for value and unit; when no match exists anywhere
in the string the whole input is reported in an InvalidHalfLife error. -/
def HalfLife.from_str (s : String) : Except Error HalfLife :=
  match regexSearch s.data with
  | some h => Except.ok h
  | none => Except.error (Error.InvalidHalfLife s)

/-- Exact unit token recognizer requiring the token to end the input; used
by the specification-form parser below. -/
def unitTokEnd : List Char → Option TimeUnit
  | ['u', 's'] => some TimeUnit.MicroSecond
  | ['m', 's'] => some TimeUnit.MilliSecond
  | ['s'] => some TimeUnit.Second
  | ['m'] => some TimeUnit.Minute
  | ['h'] => some TimeUnit.Hour
  | ['d'] => some TimeUnit.Day
  | ['y'] => some TimeUnit.Year
  | _ => none

/-- Removal of one optional leading space, as the spec allows between the
number and the unit. -/
def stripOneSpace (cs : List Char) : List Char :=
  match cs with
  | c :: t => if c = ' ' then t else c :: t
  | [] => []

/-- Modelled from the spec: the textual half-life form the specification
describes, a number followed by an optional single space and one of the
seven unit codes, with nothing before or after. The numeral grammar is the
one the spec's examples use (digits, optional fraction, optional exponent),
shared with the source matcher. Returns the denoted HalfLife. -/
def specParse (s : String) : Option HalfLife :=
  match matchNum s.data with
  | none => none
  | some (v, rest) =>
    match unitTokEnd (stripOneSpace rest) with
    | some u => some { value := v, unit := u }
    | none => none

/-- Numeral recognizer: the string is exactly one numeral of the value
grammar; returns the denoted rational. Used to quantify over the output of
the external pretty-printer in the display round-trip claim. -/
def numeralVal (s : String) : Option ℚ :=
  match matchNum s.data with
  | some (v, []) => some v
  | _ => none

/-- Display rendering of a HalfLife, from impl Display for HalfLife: the
pretty-printed numeral (produced by the external float_pretty_print crate,
abstracted here as the numstr argument, with any trailing ".0" already
stripped as the source does) followed by a space and the unit rendering. -/
def displayHL (numstr : String) (u : TimeUnit) : String :=
  numstr ++ (" ") ++ u.display

/-- Modelled from the spec: the Nuclide identity type (the nuclide module
itself is not among the given source files): atomic number, mass number and
metastable-state tag, an immutable value with exact equality, used only as
a lookup key. -/
structure Nuclide : Type where
  z : Nat
  a : Nat
  state : Nat
deriving DecidableEq, Repr

/-- Modelled from the spec: the canonical textual form of a Nuclide, used
as the payload of InvalidNuclide errors (the source calls
nuclide.to_string()). Any canonical rendering serves; here atomic number,
mass number and a metastable mark. -/
def Nuclide.render (n : Nuclide) : String :=
  toString n.z ++ ("-") ++ toString n.a ++ (if n.state = 0 then ("") else ("m"))

/-- Modelled from the spec: decay-mode tag of a progeny record. -/
inductive DecayMode : Type where
  | alpha
  | betaMinus
  | betaPlus
  | electronCapture
  | isomericTransition
  | spontaneousFission
deriving DecidableEq, Repr

/-- Modelled from the spec: one decay product of a nuclide: target nuclide,
decay mode and branching fraction. -/
structure Progeny : Type where
  target : Nuclide
  mode : DecayMode
  branching : ℚ
deriving DecidableEq, Repr

/-- Modelled from the spec: one record of the index table (ndx::Attribute,
whose module is not among the given source files): the nuclide's half-life
and its ordered progeny sequence. -/
structure Attribute : Type where
  half_life : HalfLife
  progeny : List Progeny
deriving DecidableEq, Repr

/-- Index table keyed by Nuclide, embedding the HashMap built by the index
reader as an association list with unique keys. -/
abbrev NdxTable : Type := List (Nuclide × Attribute)

/-- Key lookup in the index table, embedding HashMap::get. -/
def findAttr : NdxTable → Nuclide → Option Attribute
  | [], _ => none
  | (k, attr) :: rest, n => if k = n then some attr else findAttr rest n

/-- Nuclide validity check, from Icrp107::check_nuclide: propagate a load
error of the index table, then report InvalidNuclide with the nuclide's
textual form when the key is absent. The ndx argument is the outcome of
self.ndx(). -/
def check_nuclide (ndx : Except Error NdxTable) (n : Nuclide) : Except Error Unit :=
  match ndx with
  | Except.error e => Except.error e
  | Except.ok t =>
    match findAttr t n with
    | some _ => Except.ok ()
    | none => Except.error (Error.InvalidNuclide n.render)

/-- Progeny lookup, from Icrp107::progeny. -/
def progeny (ndx : Except Error NdxTable) (n : Nuclide) : Except Error (List Progeny) :=
  match ndx with
  | Except.error e => Except.error e
  | Except.ok t =>
    match findAttr t n with
    | some attr => Except.ok attr.progeny
    | none => Except.error (Error.InvalidNuclide n.render)

/-- Half-life lookup, from Icrp107::half_life. -/
def half_life (ndx : Except Error NdxTable) (n : Nuclide) : Except Error HalfLife :=
  match ndx with
  | Except.error e => Except.error e
  | Except.ok t =>
    match findAttr t n with
    | some attr => Except.ok attr.half_life
    | none => Except.error (Error.InvalidNuclide n.render)

/-- Decay-constant lookup, from Icrp107::lambda, which maps as_lambda over
the half_life result. -/
noncomputable def lambda (ndx : Except Error NdxTable) (n : Nuclide) : Except Error ℝ :=
  (half_life ndx n).map HalfLife.as_lambda

/-- One call to a table accessor of the facade, embedding
OnceCell::get_or_try_init as used by Icrp107::ndx, rad, bet, ack and nsf:
a filled cell is returned as is; an empty cell runs the table reader, whose
outcome is the load argument; a successful read fills the cell, a failed
read returns the error and leaves the cell empty. Returns the caller's
result and the cell state after the call. -/
def accessorCall {α : Type} (cell : Option α) (load : Except Error α) :
    Except Error α × Option α :=
  match cell with
  | some v => (Except.ok v, some v)
  | none =>
    match load with
    | Except.ok v => (Except.ok v, some v)
    | Except.error e => (Except.error e, none)

/-- Facade of the ICRP-107 file-backed dataset, from struct Icrp107: it
owns only the dataset's root path; the table cells are process-wide
statics, not fields. -/
structure Icrp107 : Type where
  path : String

/-- One call to Icrp107::ndx made by the given instance: the cell argument
is the process-wide static NDX, shared by every instance; readTable stands
for IndexReader::new(path.join filename).read(). The Bool records whether
the underlying file was read during this call. -/
def ndxAccessor (inst : Icrp107) (cell : Option NdxTable)
    (readTable : String → Except Error NdxTable) :
    Except Error NdxTable × Option NdxTable × Bool :=
  match cell with
  | some t => (Except.ok t, some t, false)
  | none =>
    match readTable (inst.path ++ ("/ICRP-07.NDX")) with
    | Except.ok t => (Except.ok t, some t, true)
    | Except.error e => (Except.error e, none, true)

/-- Outcome of a Rust computation that may panic, used to embed the
unwrap() calls of the DecayChain impl in dataset/mod.rs. -/
inductive PanicOr (α : Type) : Type where
  | panicked
  | ret (a : α)
deriving DecidableEq, Repr

/-- Progeny lookup of the second dataset module, from
NuclideData::get_progeny in dataset/mod.rs: the index-table load result is
unwrapped (a load error panics); an absent key yields None. -/
def get_progeny (ndx : Except Error NdxTable) (n : Nuclide) :
    PanicOr (Option (List Progeny)) :=
  match ndx with
  | Except.error _ => PanicOr.panicked
  | Except.ok t => PanicOr.ret ((findAttr t n).map Attribute.progeny)

/-- Half-life lookup of the second dataset module, from
NuclideData::get_half_life in dataset/mod.rs. -/
def get_half_life (ndx : Except Error NdxTable) (n : Nuclide) :
    PanicOr (Option HalfLife) :=
  match ndx with
  | Except.error _ => PanicOr.panicked
  | Except.ok t => PanicOr.ret ((findAttr t n).map Attribute.half_life)

/-- Concrete nuclide Co-60 for witness statements. -/
def nuclideCo60 : Nuclide := { z := 27, a := 60, state := 0 }

/-- Concrete nuclide Ni-60 for witness statements. -/
def nuclideNi60 : Nuclide := { z := 28, a := 60, state := 0 }

/-- Concrete nuclide H-1 (absent from the witness table). -/
def nuclideH1 : Nuclide := { z := 1, a := 1, state := 0 }

/-- Concrete index record for Co-60 for witness statements. -/
def attrCo60 : Attribute :=
  { half_life := { value := 527 / 100, unit := TimeUnit.Year }
    progeny := [{ target := nuclideNi60, mode := DecayMode.betaMinus, branching := 1 }] }

/-- Concrete one-entry index table for witness statements. -/
def tblCo60 : NdxTable := [(nuclideCo60, attrCo60)]

theorem takeWhile_append_stop (p : Char → Bool) (cs l : List Char)
    (h : cs.dropWhile p ≠ []) :
    (cs ++ l).takeWhile p = cs.takeWhile p ∧
      (cs ++ l).dropWhile p = cs.dropWhile p ++ l := by
  induction cs with
  | nil => simp [List.dropWhile] at h
  | cons c t ih =>
    by_cases hp : p c
    · have ht : t.dropWhile p ≠ [] := by
        simpa [List.dropWhile_cons_of_pos hp] using h
      obtain ⟨h1, h2⟩ := ih ht
      exact ⟨by simp [List.takeWhile_cons_of_pos hp, h1],
        by simp [List.dropWhile_cons_of_pos hp, h2]⟩
    · exact ⟨by simp [List.takeWhile_cons_of_neg hp],
        by simp [List.dropWhile_cons_of_neg hp]⟩

theorem takeWhile_append_all (p : Char → Bool) (cs l : List Char)
    (h : cs.dropWhile p = []) :
    (cs ++ l).takeWhile p = cs ++ l.takeWhile p ∧
      (cs ++ l).dropWhile p = l.dropWhile p := by
  induction cs with
  | nil => simp
  | cons c t ih =>
    by_cases hp : p c
    · have ht : t.dropWhile p = [] := by
        simpa [List.dropWhile_cons_of_pos hp] using h
      obtain ⟨h1, h2⟩ := ih ht
      exact ⟨by simp [List.takeWhile_cons_of_pos hp, h1],
        by simp [List.dropWhile_cons_of_pos hp, h2]⟩
    · rw [List.dropWhile_cons_of_neg hp] at h
      exact absurd h (by simp)

theorem takeWhile_eq_self_of_dropWhile_nil (p : Char → Bool) (cs : List Char)
    (h : cs.dropWhile p = []) : cs.takeWhile p = cs := by
  have := List.takeWhile_append_dropWhile (p := p) (l := cs)
  rw [h] at this
  simpa using this

theorem readExpDigits_append (orig u l' : List Char) (sign e : Int)
    (horig : orig ≠ []) (h : readExpDigits orig u sign = (e, [])) :
    readExpDigits (orig ++ ' ' :: l') (u ++ ' ' :: l') sign = (e, ' ' :: l') := by
  unfold readExpDigits at h
  cases hds : u.takeWhile Char.isDigit with
  | nil =>
    rw [hds] at h
    simp only [Prod.mk.injEq] at h
    exact absurd h.2 horig
  | cons d ds =>
    rw [hds] at h
    simp only [Prod.mk.injEq] at h
    obtain ⟨he, hdrop⟩ := h
    have htw : u.takeWhile Char.isDigit = u :=
      takeWhile_eq_self_of_dropWhile_nil _ _ hdrop
    have hu : u = d :: ds := by rw [← htw, hds]
    subst hu
    obtain ⟨h1, h2⟩ := takeWhile_append_all Char.isDigit (d :: ds) (' ' :: l') hdrop
    have hsp : (' ' :: l').takeWhile Char.isDigit = [] :=
      List.takeWhile_cons_of_neg (by decide)
    have hsp2 : (' ' :: l').dropWhile Char.isDigit = ' ' :: l' :=
      List.dropWhile_cons_of_neg (by decide)
    rw [hsp, List.append_nil] at h1
    rw [hsp2] at h2
    unfold readExpDigits
    rw [h1]
    show (sign * (natOfDigits (d :: ds) : Int),
      List.dropWhile Char.isDigit (d :: ds ++ ' ' :: l')) = (e, ' ' :: l')
    rw [h2, he]

theorem readExpTail_append (orig rest l' : List Char) (e : Int)
    (horig : orig ≠ []) (h : readExpTail orig rest = (e, [])) :
    readExpTail (orig ++ ' ' :: l') (rest ++ ' ' :: l') = (e, ' ' :: l') := by
  cases rest with
  | nil =>
    unfold readExpTail readExpDigits at h
    simp only [List.takeWhile_nil, Prod.mk.injEq] at h
    exact absurd h.2 horig
  | cons c u =>
    have h' : (if c = '+' then readExpDigits orig u 1
        else if c = '-' then readExpDigits orig u (-1)
        else readExpDigits orig (c :: u) 1) = (e, []) := h
    show (if c = '+' then readExpDigits (orig ++ ' ' :: l') (u ++ ' ' :: l') 1
        else if c = '-' then readExpDigits (orig ++ ' ' :: l') (u ++ ' ' :: l') (-1)
        else readExpDigits (orig ++ ' ' :: l') (c :: (u ++ ' ' :: l')) 1) = (e, ' ' :: l')
    by_cases hp : c = '+'
    · rw [if_pos hp] at h' ⊢
      exact readExpDigits_append orig u l' 1 e horig h'
    · rw [if_neg hp] at h' ⊢
      by_cases hm : c = '-'
      · rw [if_pos hm] at h' ⊢
        exact readExpDigits_append orig u l' (-1) e horig h'
      · rw [if_neg hm] at h' ⊢
        have := readExpDigits_append orig (c :: u) l' 1 e horig h'
        rw [List.cons_append] at this
        exact this

theorem readExp_other (c : Char) (t : List Char) (he : c ≠ 'e') (hE : c ≠ 'E') :
    readExp (c :: t) = (0, c :: t) := by
  unfold readExp
  split
  · rename_i rest heq
    injection heq with h1 _
    exact absurd h1 he
  · rename_i rest heq
    injection heq with h1 _
    exact absurd h1 hE
  · rfl

theorem readExp_append_space (cs l' : List Char) (e : Int)
    (h : readExp cs = (e, [])) :
    readExp (cs ++ ' ' :: l') = (e, ' ' :: l') := by
  cases cs with
  | nil =>
    unfold readExp at h
    simp only [Prod.mk.injEq] at h
    unfold readExp
    rw [List.nil_append]
    show ((0 : Int), ' ' :: l') = (e, ' ' :: l')
    rw [← h.1]
  | cons c t =>
    by_cases he : c = 'e'
    · subst he
      have h' : readExpTail ('e' :: t) t = (e, []) := h
      have := readExpTail_append ('e' :: t) t l' e (by simp) h'
      rw [List.cons_append] at this ⊢
      exact this
    · by_cases hE : c = 'E'
      · subst hE
        have h' : readExpTail ('E' :: t) t = (e, []) := h
        have := readExpTail_append ('E' :: t) t l' e (by simp) h'
        rw [List.cons_append] at this ⊢
        exact this
      · rw [readExp_other c t he hE] at h
        simp only [Prod.mk.injEq] at h
        exact absurd h.2 (by simp)

theorem matchFrac_nil (d1 : List Char) :
    matchFrac d1 [] = (mkVal d1 [] 0, []) := rfl

theorem matchFrac_cons_dot (d1 t : List Char) :
    matchFrac d1 ('.' :: t) =
      (mkVal d1 (t.takeWhile Char.isDigit) (readExp (t.dropWhile Char.isDigit)).1,
        (readExp (t.dropWhile Char.isDigit)).2) := rfl

theorem matchFrac_other (d1 : List Char) (c : Char) (t : List Char) (hc : c ≠ '.') :
    matchFrac d1 (c :: t) = (mkVal d1 [] (readExp (c :: t)).1, (readExp (c :: t)).2) := by
  unfold matchFrac
  split
  · rename_i t' heq
    injection heq with h1 _
    exact absurd h1 hc
  · rfl

theorem matchFrac_append (d1 r1 l' : List Char) (v : ℚ)
    (h : matchFrac d1 r1 = (v, [])) :
    matchFrac d1 (r1 ++ ' ' :: l') = (v, ' ' :: l') := by
  cases r1 with
  | nil =>
    rw [matchFrac_nil] at h
    simp only [Prod.mk.injEq] at h
    rw [List.nil_append]
    rw [matchFrac_other d1 ' ' l' (by decide)]
    rw [readExp_other ' ' l' (by decide) (by decide)]
    rw [← h.1]
  | cons c t =>
    by_cases hc : c = '.'
    · subst hc
      rw [matchFrac_cons_dot] at h
      simp only [Prod.mk.injEq] at h
      obtain ⟨hv, hr⟩ := h
      rw [List.cons_append, matchFrac_cons_dot]
      cases hdt : t.dropWhile Char.isDigit with
      | nil =>
        obtain ⟨h1, h2⟩ := takeWhile_append_all Char.isDigit t (' ' :: l') hdt
        rw [List.takeWhile_cons_of_neg (by decide), List.append_nil] at h1
        rw [List.dropWhile_cons_of_neg (by decide)] at h2
        rw [h1, h2]
        rw [readExp_other ' ' l' (by decide) (by decide)]
        rw [hdt] at hv
        have htt : t.takeWhile Char.isDigit = t :=
          takeWhile_eq_self_of_dropWhile_nil _ _ hdt
        rw [htt] at hv
        simp only [Prod.mk.injEq]
        exact ⟨hv, trivial⟩
      | cons c2 r2 =>
        obtain ⟨h1, h2⟩ := takeWhile_append_stop Char.isDigit t (' ' :: l')
          (by rw [hdt]; simp)
        rw [h1, h2, hdt]
        rw [hdt] at hv hr
        have hre : readExp (c2 :: r2) = ((readExp (c2 :: r2)).1, []) := by rw [← hr]
        have hx := readExp_append_space (c2 :: r2) l' (readExp (c2 :: r2)).1 hre
        rw [hx]
        simp only [Prod.mk.injEq]
        exact ⟨hv, trivial⟩
    · rw [matchFrac_other d1 c t hc] at h
      simp only [Prod.mk.injEq] at h
      obtain ⟨hv, hr⟩ := h
      rw [List.cons_append, matchFrac_other d1 c (t ++ ' ' :: l') hc]
      have hre : readExp (c :: t) = ((readExp (c :: t)).1, []) := by rw [← hr]
      have hx := readExp_append_space (c :: t) l' (readExp (c :: t)).1 hre
      rw [List.cons_append] at hx
      rw [hx]
      simp only [Prod.mk.injEq]
      exact ⟨hv, trivial⟩

theorem matchNum_append (cs l' : List Char) (v : ℚ)
    (h : matchNum cs = some (v, [])) :
    matchNum (cs ++ ' ' :: l') = some (v, ' ' :: l') := by
  unfold matchNum at h
  cases hd1 : cs.takeWhile Char.isDigit with
  | nil => rw [hd1] at h; exact absurd h (by simp)
  | cons d ds =>
    rw [hd1] at h
    have h' : matchFrac (d :: ds) (cs.dropWhile Char.isDigit) = (v, []) :=
      Option.some.inj h
    unfold matchNum
    cases hr1 : cs.dropWhile Char.isDigit with
    | nil =>
      have hcs : cs.takeWhile Char.isDigit = cs :=
        takeWhile_eq_self_of_dropWhile_nil _ _ hr1
      have hcs2 : cs = d :: ds := by rw [← hcs, hd1]
      subst hcs2
      obtain ⟨h1, h2⟩ := takeWhile_append_all Char.isDigit (d :: ds) (' ' :: l') hr1
      rw [List.takeWhile_cons_of_neg (by decide), List.append_nil] at h1
      rw [List.dropWhile_cons_of_neg (by decide)] at h2
      rw [hr1] at h'
      have hm := matchFrac_append (d :: ds) [] l' v h'
      rw [List.nil_append] at hm
      rw [h1]
      show some (matchFrac (d :: ds) ((d :: ds ++ ' ' :: l').dropWhile Char.isDigit)) =
        some (v, ' ' :: l')
      rw [h2, hm]
    | cons c1 r1 =>
      obtain ⟨h1, h2⟩ := takeWhile_append_stop Char.isDigit cs (' ' :: l')
        (by rw [hr1]; simp)
      rw [h1, hd1]
      show some (matchFrac (d :: ds) ((cs ++ ' ' :: l').dropWhile Char.isDigit)) =
        some (v, ' ' :: l')
      rw [h2, hr1]
      rw [hr1] at h'
      rw [matchFrac_append (d :: ds) (c1 :: r1) l' v h']

theorem matchUnit_of_unitTokEnd (t : List Char) (u : TimeUnit)
    (h : unitTokEnd t = some u) : matchUnit t = some (u, []) := by
  unfold unitTokEnd at h
  split at h
  all_goals first
    | (injection h with h1; rw [← h1]; rfl)
    | exact absurd h (by simp)

theorem matchSpaceUnit_of_unitTokEnd (rest : List Char) (u : TimeUnit)
    (hu : unitTokEnd (stripOneSpace rest) = some u) :
    matchSpaceUnit rest = some u := by
  cases rest with
  | nil => exact absurd hu (by simp [stripOneSpace, unitTokEnd])
  | cons c t =>
    by_cases hc : c = ' '
    · subst hc
      have hu' : unitTokEnd t = some u := by
        have hstrip : stripOneSpace (' ' :: t) = t := by simp [stripOneSpace]
        rw [hstrip] at hu
        exact hu
      have hm := matchUnit_of_unitTokEnd t u hu'
      show (match matchUnit t with
        | some p => some p.1
        | none => (matchUnit (' ' :: t)).map (fun p => p.1)) = some u
      rw [hm]
    · have hs : stripOneSpace (c :: t) = c :: t := by simp [stripOneSpace, hc]
      rw [hs] at hu
      unfold unitTokEnd at hu
      split at hu
      all_goals first
        | (rename_i heq
           injection heq with hc1 ht1
           subst hc1
           subst ht1
           injection hu with h1
           rw [← h1]
           rfl)
        | exact absurd hu (by simp)

theorem specParse_from_str (s : String) (h : HalfLife)
    (hs : specParse s = some h) : HalfLife.from_str s = Except.ok h := by
  unfold specParse at hs
  cases hmn : matchNum s.data with
  | none => rw [hmn] at hs; exact absurd hs (by simp)
  | some vr =>
    obtain ⟨v, rest⟩ := vr
    rw [hmn] at hs
    have hs' : (match unitTokEnd (stripOneSpace rest) with
      | some u => some { value := v, unit := u }
      | none => (none : Option HalfLife)) = some h := hs
    cases hu : unitTokEnd (stripOneSpace rest) with
    | none => rw [hu] at hs'; exact absurd hs' (by simp)
    | some u =>
      rw [hu] at hs'
      have hh : h = { value := v, unit := u } := (Option.some.inj hs').symm
      subst hh
      have hmsu := matchSpaceUnit_of_unitTokEnd rest u hu
      have hhl : matchHL s.data = some { value := v, unit := u } := by
        unfold matchHL
        rw [hmn]
        show (match matchSpaceUnit rest with
          | some u' => some { value := v, unit := u' }
          | none => (none : Option HalfLife)) = some { value := v, unit := u }
        rw [hmsu]
      have hne : s.data ≠ [] := by
        intro hnil
        rw [hnil] at hmn
        exact absurd hmn (by simp [matchNum])
      obtain ⟨c, t, hct⟩ : ∃ c t, s.data = c :: t := by
        cases hd : s.data with
        | nil => exact absurd hd hne
        | cons c t => exact ⟨c, t, rfl⟩
      rw [hct] at hhl
      have hrs : regexSearch (c :: t) = some { value := v, unit := u } := by
        unfold regexSearch
        rw [hhl]
      unfold HalfLife.from_str
      rw [hct, hrs]

theorem regexSearch_no_digit (cs : List Char)
    (hnd : ∀ c ∈ cs, c.isDigit = false) : regexSearch cs = none := by
  induction cs with
  | nil => rfl
  | cons c t ih =>
    have hc : c.isDigit = false := hnd c (List.mem_cons_self c t)
    have hmn : matchNum (c :: t) = none := by
      unfold matchNum
      rw [List.takeWhile_cons_of_neg (by simp [hc])]
    have hhl : matchHL (c :: t) = none := by
      unfold matchHL
      rw [hmn]
    unfold regexSearch
    rw [hhl]
    exact ih (fun c' hc' => hnd c' (List.mem_cons_of_mem c hc'))

theorem mkVal_nonneg (d1 d2 : List Char) (e : Int) : 0 ≤ mkVal d1 d2 e := by
  unfold mkVal
  positivity

theorem matchFrac_fst_nonneg (d1 r1 : List Char) : 0 ≤ (matchFrac d1 r1).1 := by
  unfold matchFrac
  split
  · exact mkVal_nonneg _ _ _
  · exact mkVal_nonneg _ _ _

theorem matchNum_value_nonneg (cs : List Char) (v : ℚ) (r : List Char)
    (h : matchNum cs = some (v, r)) : 0 ≤ v := by
  unfold matchNum at h
  split at h
  · exact absurd h (by simp)
  · have hv := congrArg Prod.fst (Option.some.inj h)
    simp only [Prod.fst] at hv
    rw [← hv]
    exact matchFrac_fst_nonneg _ _

theorem matchHL_value_nonneg (cs : List Char) (h : HalfLife)
    (hh : matchHL cs = some h) : 0 ≤ h.value := by
  unfold matchHL at hh
  cases hmn : matchNum cs with
  | none => rw [hmn] at hh; exact absurd hh (by simp)
  | some vr =>
    obtain ⟨v, rest⟩ := vr
    rw [hmn] at hh
    have hh' : (match matchSpaceUnit rest with
      | some u => some { value := v, unit := u }
      | none => (none : Option HalfLife)) = some h := hh
    cases hsu : matchSpaceUnit rest with
    | none => rw [hsu] at hh'; exact absurd hh' (by simp)
    | some u =>
      rw [hsu] at hh'
      have he := (Option.some.inj hh').symm
      rw [he]
      exact matchNum_value_nonneg cs v rest hmn

theorem regexSearch_value_nonneg (cs : List Char) (h : HalfLife)
    (hs : regexSearch cs = some h) : 0 ≤ h.value := by
  induction cs with
  | nil => exact absurd hs (by simp [regexSearch])
  | cons c t ih =>
    unfold regexSearch at hs
    cases hm : matchHL (c :: t) with
    | some h' =>
      rw [hm] at hs
      have hh := Option.some.inj hs
      rw [← hh]
      exact matchHL_value_nonneg _ _ hm
    | none =>
      rw [hm] at hs
      exact ih hs


theorem mkVal_zero : mkVal ['0'] [] 0 = 0 := by
  unfold mkVal
  rw [show natOfDigits ['0'] = 0 from rfl, show natOfDigits [] = 0 from rfl]
  norm_num

theorem mkVal_one : mkVal ['1'] [] 0 = 1 := by
  unfold mkVal
  rw [show natOfDigits ['1'] = 1 from rfl, show natOfDigits [] = 0 from rfl]
  norm_num

theorem mkVal_two : mkVal ['2'] [] 0 = 2 := by
  unfold mkVal
  rw [show natOfDigits ['2'] = 2 from rfl, show natOfDigits [] = 0 from rfl]
  norm_num

theorem mkVal_ten : mkVal ['1', '0'] [] 0 = 10 := by
  unfold mkVal
  rw [show natOfDigits ['1', '0'] = 10 from rfl, show natOfDigits [] = 0 from rfl]
  norm_num

theorem mkVal_three_halves : mkVal ['1'] ['5'] 0 = 3 / 2 := by
  unfold mkVal
  rw [show natOfDigits ['1'] = 1 from rfl, show natOfDigits ['5'] = 5 from rfl]
  norm_num

theorem mkVal_five_halves : mkVal ['2'] ['5'] 0 = 5 / 2 := by
  unfold mkVal
  rw [show natOfDigits ['2'] = 2 from rfl, show natOfDigits ['5'] = 5 from rfl]
  norm_num

/-- C1: on the DecayData impl of the Icrp107 facade, with the index table
loaded, check_nuclide, progeny, half_life and lambda return an
InvalidNuclide error carrying the nuclide's textual form exactly when the
key is absent from the index table, and succeed with the nuclide's ordered
progeny sequence, its HalfLife and the decay constant
ln(2) / half_life.as_sec when the key is present. -/
theorem icrp107_ops_invalid_iff_absent (t : NdxTable) (n : Nuclide) :
    (findAttr t n = none →
      check_nuclide (Except.ok t) n = Except.error (Error.InvalidNuclide n.render) ∧
      progeny (Except.ok t) n = Except.error (Error.InvalidNuclide n.render) ∧
      half_life (Except.ok t) n = Except.error (Error.InvalidNuclide n.render) ∧
      lambda (Except.ok t) n = Except.error (Error.InvalidNuclide n.render)) ∧
    (∀ attr : Attribute, findAttr t n = some attr →
      check_nuclide (Except.ok t) n = Except.ok () ∧
      progeny (Except.ok t) n = Except.ok attr.progeny ∧
      half_life (Except.ok t) n = Except.ok attr.half_life ∧
      lambda (Except.ok t) n =
        Except.ok (Real.log 2 / (attr.half_life.as_sec : ℝ))) := by
  constructor
  · intro hf
    refine ⟨?_, ?_, ?_, ?_⟩
    · show (match findAttr t n with
        | some _ => Except.ok ()
        | none => Except.error (Error.InvalidNuclide n.render)) =
        Except.error (Error.InvalidNuclide n.render)
      rw [hf]
    · show (match findAttr t n with
        | some attr => Except.ok attr.progeny
        | none => Except.error (Error.InvalidNuclide n.render)) =
        Except.error (Error.InvalidNuclide n.render)
      rw [hf]
    · show (match findAttr t n with
        | some attr => Except.ok attr.half_life
        | none => Except.error (Error.InvalidNuclide n.render)) =
        Except.error (Error.InvalidNuclide n.render)
      rw [hf]
    · show Except.map HalfLife.as_lambda (match findAttr t n with
        | some attr => Except.ok attr.half_life
        | none => Except.error (Error.InvalidNuclide n.render)) =
        Except.error (Error.InvalidNuclide n.render)
      rw [hf]
      rfl
  · intro attr hf
    refine ⟨?_, ?_, ?_, ?_⟩
    · show (match findAttr t n with
        | some _ => Except.ok ()
        | none => Except.error (Error.InvalidNuclide n.render)) = Except.ok ()
      rw [hf]
    · show (match findAttr t n with
        | some attr => Except.ok attr.progeny
        | none => Except.error (Error.InvalidNuclide n.render)) =
        Except.ok attr.progeny
      rw [hf]
    · show (match findAttr t n with
        | some attr => Except.ok attr.half_life
        | none => Except.error (Error.InvalidNuclide n.render)) =
        Except.ok attr.half_life
      rw [hf]
    · show Except.map HalfLife.as_lambda (match findAttr t n with
        | some attr => Except.ok attr.half_life
        | none => Except.error (Error.InvalidNuclide n.render)) =
        Except.ok (Real.log 2 / (attr.half_life.as_sec : ℝ))
      rw [hf]
      rfl

/-- Witness for C1: on a concrete one-entry table, the absent key H-1 is
rejected with InvalidNuclide and the present key Co-60 succeeds. -/
theorem icrp107_ops_invalid_iff_absent_app :
    (findAttr tblCo60 nuclideH1 = none ∧
      check_nuclide (Except.ok tblCo60) nuclideH1 =
        Except.error (Error.InvalidNuclide nuclideH1.render)) ∧
    (findAttr tblCo60 nuclideCo60 = some attrCo60 ∧
      progeny (Except.ok tblCo60) nuclideCo60 = Except.ok attrCo60.progeny) :=
  ⟨⟨rfl, ((icrp107_ops_invalid_iff_absent tblCo60 nuclideH1).1 rfl).1⟩,
   ⟨rfl, ((icrp107_ops_invalid_iff_absent tblCo60 nuclideCo60).2 attrCo60 rfl).2.1⟩⟩

/-- C2 counterexample: the string x10y is not of the number-unit spec form
(specParse rejects it), yet from_str accepts it with value 10 and unit
year, because the regex search is unanchored; the claim that any such input
fails with InvalidHalfLife is therefore false. -/
theorem from_str_accepts_embedded_match :
    specParse ("x10y") = none ∧
    HalfLife.from_str ("x10y") =
      Except.ok { value := 10, unit := TimeUnit.Year } := by
  refine ⟨rfl, ?_⟩
  rw [show HalfLife.from_str ("x10y") =
    Except.ok { value := mkVal ['1', '0'] [] 0, unit := TimeUnit.Year } from rfl]
  rw [mkVal_ten]

/-- C2 amended: parsing is an unanchored substring search. Every string of
the pure number-unit spec form parses successfully to its denoted value and
unit; a string with no digit at all (hence no possible match of the value
pattern) fails with an InvalidHalfLife error carrying the whole input; but
extra characters around a well-formed pair do not cause failure. -/
theorem from_str_unanchored_amended :
    (∀ (s : String) (h : HalfLife), specParse s = some h →
      HalfLife.from_str s = Except.ok h) ∧
    (∀ s : String, (∀ c ∈ s.data, c.isDigit = false) →
      HalfLife.from_str s = Except.error (Error.InvalidHalfLife s)) := by
  constructor
  · exact specParse_from_str
  · intro s hs
    unfold HalfLife.from_str
    rw [regexSearch_no_digit s.data hs]

/-- Witness for C2 amended: the pure form 1.5 s parses to 3/2 seconds, and
the digit-free string abc fails with InvalidHalfLife. -/
theorem from_str_unanchored_amended_app :
    HalfLife.from_str ("1.5 s") =
      Except.ok { value := mkVal ['1'] ['5'] 0, unit := TimeUnit.Second } ∧
    HalfLife.from_str ("abc") = Except.error (Error.InvalidHalfLife ("abc")) :=
  ⟨from_str_unanchored_amended.1 ("1.5 s")
      { value := mkVal ['1'] ['5'] 0, unit := TimeUnit.Second } rfl,
   from_str_unanchored_amended.2 ("abc") (by decide)⟩

/-- C3 counterexample: the string 0s parses successfully to the value zero,
so a string denoting zero does not fail to parse and the parsed value is
not strictly positive. -/
theorem from_str_zero_parses :
    HalfLife.from_str ("0s") = Except.ok { value := 0, unit := TimeUnit.Second } ∧
    ¬ (0 : ℚ) <
      ({ value := 0, unit := TimeUnit.Second } : HalfLife).value := by
  constructor
  · rw [show HalfLife.from_str ("0s") =
      Except.ok { value := mkVal ['0'] [] 0, unit := TimeUnit.Second } from rfl]
    rw [mkVal_zero]
  · exact lt_irrefl 0

/-- C3 amended: every successfully parsed HalfLife has a nonnegative value
(the value pattern admits no sign, and in the exact-rational embedding
every numeral is finite); zero is reachable, so strict positivity fails. -/
theorem from_str_value_nonneg (s : String) (h : HalfLife)
    (hs : HalfLife.from_str s = Except.ok h) : 0 ≤ h.value := by
  unfold HalfLife.from_str at hs
  cases hr : regexSearch s.data with
  | none => rw [hr] at hs; exact absurd hs (by simp)
  | some h' =>
    rw [hr] at hs
    have hh := Except.ok.inj hs
    rw [← hh]
    exact regexSearch_value_nonneg _ _ hr

/-- Witness for C3 amended: 2h parses and its value 2 is nonnegative. -/
theorem from_str_value_nonneg_app :
    (0 : ℚ) ≤ ({ value := mkVal ['2'] [] 0, unit := TimeUnit.Hour } : HalfLife).value :=
  from_str_value_nonneg ("2h")
    { value := mkVal ['2'] [] 0, unit := TimeUnit.Hour } rfl

/-- C4 counterexample: the HalfLife parsed from 1us displays as the string
1 μs (per the source's own display test), and re-parsing that display
output fails with InvalidHalfLife, because the display unit μs is not
matched by the parse pattern; so display-then-reparse does not succeed for
every constructed HalfLife. -/
theorem display_micro_reparse_fails :
    HalfLife.from_str ("1us") =
      Except.ok { value := 1, unit := TimeUnit.MicroSecond } ∧
    displayHL ("1") TimeUnit.MicroSecond = ("1 μs") ∧
    HalfLife.from_str (displayHL ("1") TimeUnit.MicroSecond) =
      Except.error (Error.InvalidHalfLife ("1 μs")) := by
  refine ⟨?_, rfl, rfl⟩
  rw [show HalfLife.from_str ("1us") =
    Except.ok { value := mkVal ['1'] [] 0, unit := TimeUnit.MicroSecond } from rfl]
  rw [mkVal_one]

/-- C4 amended: for every unit other than MicroSecond, displaying a
HalfLife whose pretty-printed numeral is a plain numeral of the value
grammar and re-parsing the display output succeeds and returns exactly the
displayed value and unit (equality is exact in the rational embedding, so
in particular within any floating tolerance). -/
theorem display_reparse_nonmicro (numstr : String) (u : TimeUnit) (q : ℚ)
    (hu : u ≠ TimeUnit.MicroSecond) (hn : numeralVal numstr = some q) :
    HalfLife.from_str (displayHL numstr u) =
      Except.ok { value := q, unit := u } := by
  apply specParse_from_str
  have hmn : matchNum numstr.data = some (q, []) := by
    unfold numeralVal at hn
    cases hm : matchNum numstr.data with
    | none => rw [hm] at hn; exact absurd hn (by simp)
    | some vr =>
      obtain ⟨v, r⟩ := vr
      rw [hm] at hn
      cases r with
      | nil =>
        have hv : v = q := Option.some.inj hn
        rw [← hv]
      | cons c rr => exact absurd hn (by simp)
  have hdata : (displayHL numstr u).data = numstr.data ++ ' ' :: u.display.data := by
    unfold displayHL
    rw [String.data_append, String.data_append, List.append_assoc]
    rfl
  unfold specParse
  rw [hdata, matchNum_append numstr.data u.display.data q hmn]
  show (match unitTokEnd (stripOneSpace (' ' :: u.display.data)) with
    | some u' => some { value := q, unit := u' }
    | none => (none : Option HalfLife)) = some { value := q, unit := u }
  have hstrip : stripOneSpace (' ' :: u.display.data) = u.display.data := by
    simp [stripOneSpace]
  rw [hstrip]
  cases u with
  | MicroSecond => exact absurd rfl hu
  | MilliSecond => rfl
  | Second => rfl
  | Minute => rfl
  | Hour => rfl
  | Day => rfl
  | Year => rfl

/-- Witness for C4 amended: the numeral 2.5 (denoting 5/2) with unit
Second displays as 2.5 s and re-parses to the same value and unit. -/
theorem display_reparse_nonmicro_app :
    mkVal ['2'] ['5'] 0 = 5 / 2 ∧
    numeralVal ("2.5") = some (mkVal ['2'] ['5'] 0) ∧
    HalfLife.from_str (displayHL ("2.5") TimeUnit.Second) =
      Except.ok { value := mkVal ['2'] ['5'] 0, unit := TimeUnit.Second } :=
  ⟨mkVal_five_halves, rfl,
   display_reparse_nonmicro ("2.5") TimeUnit.Second (mkVal ['2'] ['5'] 0)
     (by decide) rfl⟩

/-- C5: a table accessor call on an empty cell that fails returns the
error to the caller and leaves the cell empty, so the next call on the
resulting cell state runs the table reader again and can succeed; no
partial table is ever stored. -/
theorem accessor_error_leaves_cell_empty (α : Type) (e : Error) (t : α) :
    accessorCall (none : Option α) (Except.error e) = (Except.error e, none) ∧
    accessorCall ((accessorCall (none : Option α) (Except.error e)).2)
      (Except.ok t) = (Except.ok t, some t) := ⟨rfl, rfl⟩

/-- C7: as_sec multiplies the value by the fixed per-unit conversion
factor (microsecond 1e-6, millisecond 1e-3, second 1, minute 60, hour
3600, day 86400, year 365.2422 times 86400), and parsing 10y yields
as_sec equal to 10 times the year factor. -/
theorem as_sec_conversion_table :
    (∀ v : ℚ, (HalfLife.mk v TimeUnit.MicroSecond).as_sec = v * (1 / 1000000)) ∧
    (∀ v : ℚ, (HalfLife.mk v TimeUnit.MilliSecond).as_sec = v * (1 / 1000)) ∧
    (∀ v : ℚ, (HalfLife.mk v TimeUnit.Second).as_sec = v * 1) ∧
    (∀ v : ℚ, (HalfLife.mk v TimeUnit.Minute).as_sec = v * 60) ∧
    (∀ v : ℚ, (HalfLife.mk v TimeUnit.Hour).as_sec = v * 3600) ∧
    (∀ v : ℚ, (HalfLife.mk v TimeUnit.Day).as_sec = v * 86400) ∧
    (∀ v : ℚ, (HalfLife.mk v TimeUnit.Year).as_sec =
      v * ((3652422 / 10000) * 86400)) ∧
    (HalfLife.from_str ("10y") = Except.ok { value := 10, unit := TimeUnit.Year } ∧
      (HalfLife.mk 10 TimeUnit.Year).as_sec = 10 * ((3652422 / 10000) * 86400)) := by
  refine ⟨fun v => rfl, fun v => rfl, fun v => rfl, fun v => rfl, fun v => rfl,
    fun v => rfl, fun v => rfl, ?_, rfl⟩
  rw [show HalfLife.from_str ("10y") =
    Except.ok { value := mkVal ['1', '0'] [] 0, unit := TimeUnit.Year } from rfl]
  rw [mkVal_ten]

/-- C8: the decay constant as_lambda of every constructed HalfLife equals
ln(2) divided by its as_sec. -/
theorem as_lambda_ln2_div_as_sec (h : HalfLife) :
    h.as_lambda = Real.log 2 / (h.as_sec : ℝ) := rfl

/-- C9: the table cells are process-wide state shared by all facade
instances: when the shared NDX cell already holds a table, a call to the
ndx accessor on any instance, with any root path and any on-disk content,
returns the cached table without reading a file, so the result is
independent of the calling instance. -/
theorem cached_table_independent_of_instance (inst inst' : Icrp107)
    (t : NdxTable) (readTable readTable' : String → Except Error NdxTable) :
    ndxAccessor inst (some t) readTable = (Except.ok t, some t, false) ∧
    ndxAccessor inst' (some t) readTable' = ndxAccessor inst (some t) readTable :=
  ⟨rfl, rfl⟩

/-- C10: get_progeny and get_half_life of the second dataset module unwrap
the index-table load result: a load error panics in both operations; with
a successfully loaded table they never panic and return None exactly when
the nuclide key is absent from the table. -/
theorem decay_chain_unwrap_panics_on_load_error (n : Nuclide) :
    (∀ e : Error, get_progeny (Except.error e) n = PanicOr.panicked ∧
      get_half_life (Except.error e) n = PanicOr.panicked) ∧
    (∀ t : NdxTable,
      get_progeny (Except.ok t) n =
        PanicOr.ret ((findAttr t n).map Attribute.progeny) ∧
      get_half_life (Except.ok t) n =
        PanicOr.ret ((findAttr t n).map Attribute.half_life) ∧
      (get_progeny (Except.ok t) n = PanicOr.ret none ↔ findAttr t n = none)) := by
  refine ⟨fun e => ⟨rfl, rfl⟩, fun t => ⟨rfl, rfl, ?_⟩⟩
  cases hf : findAttr t n with
  | none => simp [get_progeny, hf]
  | some attr => simp [get_progeny, hf]
